import Mathlib

/-!
Shallow embedding of the daily emotion-estimation and accuracy-scoring logic of
the emosy repository (src/empathy.py, src/ml_empathy.py,
src/peak_value_estimator.py), together with theorems settling the claims about
it.

Conventions of the embedding:
* `valence` values and questionnaire scores are rationals (the Python code works
  with exact decimal literals such as 4.5 and 0.3, faithfully represented in ℚ).
* timestamps are integers (seconds; `pandas` datetimes compared and subtracted
  as `total_seconds()`).
* the six cluster labels are the literal Japanese strings of the source, and the
  substring tests (`'ネガティブ' in cluster`) are modelled by an executable
  character-list substring search.
-/

namespace Emosy

/-- The three coarse emotion categories ('Negative' / 'Neutral' / 'Positive'). -/
inductive Category where
  | Negative
  | Neutral
  | Positive
deriving DecidableEq, Repr

/-- One emotion self-report row of a day frame: `valence`, `datetime`
(seconds), and the derived `cluster` column (filled by callers with
`assign_cluster`). -/
structure Obs where
  valence : ℚ
  datetime : ℤ
  cluster : String
deriving DecidableEq, Repr

/-- Character-list substring search: is `pat` a contiguous subsequence of the
given character list?  Executable model of Python's `pat in s`. -/
def charsContain (pat : List Char) : List Char → Bool
  | [] => pat.isEmpty
  | c :: rest => pat.isPrefixOf (c :: rest) || charsContain pat rest

/-- `hasSub s pat` models the Python membership test `pat in s` on strings. -/
def hasSub (s pat : String) : Bool := charsContain pat.toList s.toList

/-- src/empathy.py `assign_cluster`: valence to one of six cluster labels. -/
def assign_cluster (v : ℚ) : String :=
  if v ≤ 3.5 then "1-強いネガティブ"
  else if v ≤ 4.5 then "2-弱いネガティブ"
  else if v ≤ 5.2 then "3-ネガティブ寄り中立"
  else if v ≤ 6.0 then "4-ポジティブ寄り中立"
  else if v ≤ 7.6 then "5-弱いポジティブ"
  else "6-強いポジティブ"

/-- src/empathy.py `classify_by_cluster`: category from a cluster name by
substring tests (`'ネガティブ' in cluster`, then `'ポジティブ' in cluster`). -/
def classify_by_cluster (c : String) : Category :=
  if hasSub c "ネガティブ" then Category.Negative
  else if hasSub c "ポジティブ" then Category.Positive
  else Category.Neutral

/-- src/empathy.py `classify_by_valence`: 3-way category thresholds. -/
def classify_by_valence (v : ℚ) : Category :=
  if v ≤ 4.5 then Category.Negative
  else if v ≤ 6.0 then Category.Neutral
  else Category.Positive

/-- src/peak_value_estimator.py `classify_by_valence` (verbatim duplicate of
the one in src/empathy.py, kept as its own definition). -/
def pv_classify_by_valence (v : ℚ) : Category :=
  if v ≤ 4.5 then Category.Negative
  else if v ≤ 6.0 then Category.Neutral
  else Category.Positive

/-- src/empathy.py `cluster_weights` dictionary lookup with default 0
(`cluster_weights.get(cluster, 0)`). -/
def clusterWeight (c : String) : ℚ :=
  if c = "1-強いネガティブ" then -2.0
  else if c = "2-弱いネガティブ" then -1.0
  else if c = "3-ネガティブ寄り中立" then -0.3
  else if c = "4-ポジティブ寄り中立" then 0.3
  else if c = "5-弱いポジティブ" then 1.0
  else if c = "6-強いポジティブ" then 2.0
  else 0

/-- Final selection block shared verbatim by `algorithm_most_frequent` and
`algorithm_cluster_based` in src/empathy.py:
`max_count = max(neg, neu, pos)`; Positive on a tie, then Negative, else
Neutral. -/
def pickMajority (negC neuC posC : ℕ) : Category :=
  if posC = max negC (max neuC posC) then Category.Positive
  else if negC = max negC (max neuC posC) then Category.Negative
  else Category.Neutral

/-- src/empathy.py `algorithm_most_frequent`: count the per-observation
categories derived from the `cluster` column and pick the majority
(ties: Positive, then Negative). -/
def algorithm_most_frequent (d : List Obs) : Category :=
  if d = [] then Category.Neutral
  else
    let cats := d.map (fun o => classify_by_cluster o.cluster)
    pickMajority
      (cats.countP (fun x => decide (x = Category.Negative)))
      (cats.countP (fun x => decide (x = Category.Neutral)))
      (cats.countP (fun x => decide (x = Category.Positive)))

/-- The per-category count used by `algorithm_most_frequent`, i.e.
`(day_df['emotion_category'] == cat).sum()` over the derived column. -/
def catCount (d : List Obs) (c : Category) : ℕ :=
  (d.map (fun o => classify_by_cluster o.cluster)).countP (fun x => decide (x = c))

/-- First element maximising `f`, starting from `best` (models
`Series.idxmax`, which returns the first occurrence of the maximum; the fold
replaces the current best only on a strictly larger value). -/
def pickPeak (f : Obs → ℚ) (best : Obs) : List Obs → Obs
  | [] => best
  | o :: rest => if f best < f o then pickPeak f o rest else pickPeak f best rest

/-- src/empathy.py `algorithm_peak_value`: valence of the observation whose
`|valence - 5.6|` is largest (first max wins), classified by valence. -/
def algorithm_peak_value (d : List Obs) : Category :=
  match d with
  | [] => Category.Neutral
  | o :: rest =>
      classify_by_valence ((pickPeak (fun x => |x.valence - 5.6|) o rest).valence)

/-- Last element with the maximal `datetime` (the element `iloc[-1]` of the
frame sorted by `datetime`; the fold keeps the later list element on equal
timestamps, i.e. the stable-sort convention). -/
def lastByTime (best : Obs) : List Obs → Obs
  | [] => best
  | o :: rest => if best.datetime ≤ o.datetime then lastByTime o rest else lastByTime best rest

/-- src/empathy.py `algorithm_latest_value`: category of the chronologically
last observation. -/
def algorithm_latest_value (d : List Obs) : Category :=
  match d with
  | [] => Category.Neutral
  | o :: rest => classify_by_valence (lastByTime o rest).valence

/-- src/empathy.py `algorithm_average_value`: category of the mean valence. -/
def algorithm_average_value (d : List Obs) : Category :=
  if d = [] then Category.Neutral
  else classify_by_valence ((d.map (fun o => o.valence)).sum / (d.length : ℚ))

/-- Minimum of an integer list (`Series.min()` on a non-empty series; the `[]`
case is never reached behind the empty-frame guards). -/
def listMinZ : List ℤ → ℤ
  | [] => 0
  | t :: ts => ts.foldl min t

/-- Maximum of an integer list (`Series.max()` on a non-empty series). -/
def listMaxZ : List ℤ → ℤ
  | [] => 0
  | t :: ts => ts.foldl max t

/-- `day_df['datetime'].min()` over the rows of a day. -/
def minTime (d : List Obs) : ℤ := listMinZ (d.map (fun o => o.datetime))

/-- `day_df['datetime'].max()` over the rows of a day. -/
def maxTime (d : List Obs) : ℤ := listMaxZ (d.map (fun o => o.datetime))

/-- src/empathy.py `algorithm_weighted_average`: time differences to the
earliest observation, `weights = diffs / diffs.max() * 1.0 + 0.5`, and
`np.average(valence, weights) = Σ w·v / Σ w`; plain mean when all time
differences are zero.  (The source sorts the frame by `datetime` first; the
sums are order-invariant, so the sort is omitted here.) -/
def algorithm_weighted_average (d : List Obs) : Category :=
  if d = [] then Category.Neutral
  else
    let t0 := minTime d
    let mx : ℤ := (d.map (fun o => o.datetime - t0)).foldl max 0
    if mx = 0 then
      classify_by_valence ((d.map (fun o => o.valence)).sum / (d.length : ℚ))
    else
      classify_by_valence
        ((d.map (fun o => (((o.datetime - t0 : ℤ) : ℚ) / (mx : ℚ) * 1.0 + 0.5) * o.valence)).sum /
         (d.map (fun o => ((o.datetime - t0 : ℤ) : ℚ) / (mx : ℚ) * 1.0 + 0.5)).sum)

/-- Spec-side definition, written from the spec's words (§4.3): the
time-weighted mean with weight `(t - t_min)/(t_max - t_min) * 1.0 + 0.5`,
falling back to the plain mean when all timestamps are equal.  To be compared
with the source-side `algorithm_weighted_average`. -/
def weighted_mean_spec (d : List Obs) : ℚ :=
  if maxTime d = minTime d then (d.map (fun o => o.valence)).sum / (d.length : ℚ)
  else
    (d.map (fun o =>
      (((o.datetime - minTime d : ℤ) : ℚ) / ((maxTime d - minTime d : ℤ) : ℚ)
        * 1.0 + 0.5) * o.valence)).sum /
    (d.map (fun o =>
      ((o.datetime - minTime d : ℤ) : ℚ) / ((maxTime d - minTime d : ℤ) : ℚ)
        * 1.0 + 0.5)).sum

/-- src/empathy.py `algorithm_cluster_based`: partition the observation count
by the substring tests on the cluster name (the source iterates
`value_counts()` and sums counts per branch, which partitions the rows the same
way), then the shared majority block. -/
def algorithm_cluster_based (d : List Obs) : Category :=
  if d = [] then Category.Neutral
  else
    pickMajority
      (d.countP (fun o => hasSub o.cluster "ネガティブ"))
      (d.countP (fun o => !hasSub o.cluster "ネガティブ" && !hasSub o.cluster "ポジティブ"))
      (d.countP (fun o => !hasSub o.cluster "ネガティブ" && hasSub o.cluster "ポジティブ"))

/-- `total_score / len(day_df)` of src/empathy.py `algorithm_weighted_cluster`. -/
def avgClusterWeight (d : List Obs) : ℚ :=
  (d.map (fun o => clusterWeight o.cluster)).sum / (d.length : ℚ)

/-- src/empathy.py `algorithm_weighted_cluster`: average the per-cluster
weights over the day; `> 0.3 → Positive`, `< -0.3 → Negative`, else Neutral. -/
def algorithm_weighted_cluster (d : List Obs) : Category :=
  if d = [] then Category.Neutral
  else if avgClusterWeight d > 0.3 then Category.Positive
  else if avgClusterWeight d < -0.3 then Category.Negative
  else Category.Neutral

/-- src/peak_value_estimator.py `normalize_valence`:
`2 * ((v - VALENCE_MIN) / (VALENCE_MAX - VALENCE_MIN)) - 1` with bounds 1.0
and 9.0. -/
def normalize_valence (v : ℚ) : ℚ := 2.0 * ((v - 1.0) / (9.0 - 1.0)) - 1.0

/-- src/peak_value_estimator.py `estimate_emotion_by_peak_value`: first
observation maximising `|normalize_valence v|`; Neutral inside the band
`[-0.02, 0.175]`, otherwise the sign of the normalized peak decides. -/
def estimate_emotion_by_peak_value (d : List Obs) : Category :=
  match d with
  | [] => Category.Neutral
  | o :: rest =>
      let peak := normalize_valence
        ((pickPeak (fun x => |normalize_valence x.valence|) o rest).valence)
      if -0.02 ≤ peak ∧ peak ≤ 0.175 then Category.Neutral
      else if 0 < peak then Category.Positive
      else Category.Negative

/-! ## Day frames and the in-place effects of the strategies

A `DayFrame` is the mutable pandas frame a strategy receives: the observation
rows plus the presence/contents of the derived `emotion_category` column
(`none` = column absent).  Each `..._st` function returns the strategy's result
together with the state of the caller's frame after the call. -/

/-- The caller's day frame: rows plus the optional derived `emotion_category`
column. -/
structure DayFrame where
  rows : List Obs
  emotion_category : Option (List Category)
deriving DecidableEq, Repr

/-- src/empathy.py `algorithm_most_frequent` as a state function: before
counting it executes `day_df['emotion_category'] = day_df['cluster'].apply(classify_by_cluster)`,
writing the derived column into the caller's frame (no `.copy()` is taken). -/
def algorithm_most_frequent_st (df : DayFrame) : Category × DayFrame :=
  if df.rows = [] then (Category.Neutral, df)
  else
    let cats := df.rows.map (fun o => classify_by_cluster o.cluster)
    (pickMajority
      (cats.countP (fun x => decide (x = Category.Negative)))
      (cats.countP (fun x => decide (x = Category.Neutral)))
      (cats.countP (fun x => decide (x = Category.Positive))),
     { df with emotion_category := some cats })

/-- `algorithm_peak_value` only builds new local series; the input frame is
returned untouched. -/
def algorithm_peak_value_st (df : DayFrame) : Category × DayFrame :=
  (algorithm_peak_value df.rows, df)

/-- `algorithm_latest_value` sorts into a new frame; the input is untouched. -/
def algorithm_latest_value_st (df : DayFrame) : Category × DayFrame :=
  (algorithm_latest_value df.rows, df)

/-- `algorithm_average_value` reads the frame without assignment. -/
def algorithm_average_value_st (df : DayFrame) : Category × DayFrame :=
  (algorithm_average_value df.rows, df)

/-- `algorithm_weighted_average` works on `day_df.sort_values('datetime').copy()`;
the input is untouched. -/
def algorithm_weighted_average_st (df : DayFrame) : Category × DayFrame :=
  (algorithm_weighted_average df.rows, df)

/-- `algorithm_cluster_based` reads `value_counts()` without assignment. -/
def algorithm_cluster_based_st (df : DayFrame) : Category × DayFrame :=
  (algorithm_cluster_based df.rows, df)

/-- `algorithm_weighted_cluster` iterates the rows without assignment. -/
def algorithm_weighted_cluster_st (df : DayFrame) : Category × DayFrame :=
  (algorithm_weighted_cluster df.rows, df)

/-- src/peak_value_estimator.py `estimate_emotion_by_peak_value` adds its
normalized column to a `day_df.copy()`; the input is untouched. -/
def estimate_emotion_by_peak_value_st (df : DayFrame) : Category × DayFrame :=
  (estimate_emotion_by_peak_value df.rows, df)

/-! ## Ground-truth scorer (src/empathy.py `calculate_accuracy`,
src/ml_empathy.py `prepare_training_data`) -/

/-- All categories achieving `max(positive_score, neutral_score,
negative_score)`, appended in the source's order Positive, Neutral, Negative. -/
def correct_categories (p n g : ℚ) : List Category :=
  let m := max p (max n g)
  (if p = m then [Category.Positive] else []) ++
  ((if n = m then [Category.Neutral] else []) ++
   (if g = m then [Category.Negative] else []))

/-- All categories achieving `min(positive_score, neutral_score,
negative_score)`, appended in the source's order Positive, Neutral, Negative. -/
def worst_categories (p n g : ℚ) : List Category :=
  let m := min p (min n g)
  (if p = m then [Category.Positive] else []) ++
  ((if n = m then [Category.Neutral] else []) ++
   (if g = m then [Category.Negative] else []))

/-- The questionnaire score of one category. -/
def scoreOf (c : Category) (p n g : ℚ) : ℚ :=
  match c with
  | Category.Positive => p
  | Category.Neutral => n
  | Category.Negative => g

/-- `worst_label = worst_categories[0] if worst_categories else 'Neutral'`
(src/ml_empathy.py). -/
def worst_label (p n g : ℚ) : Category :=
  (worst_categories p n g).headD Category.Neutral

/-- The match judgment `estimate in correct_categories` (Python `in`). -/
def matchesJudgment (e : Category) (cs : List Category) : Bool := decide (e ∈ cs)

/-- The avoid-worst judgment `estimate not in worst_categories`. -/
def avoidWorstJudgment (e : Category) (ws : List Category) : Bool := decide (e ∉ ws)

/-- Guarded score ratio of src/empathy.py `calculate_accuracy` (lines 495 and
549): `(pred / true * 100) if true > 0 else 0`. -/
def score_ratio_report (t p : ℚ) : ℚ := if 0 < t then p / t * 100 else 0

/-- Unguarded aggregate score ratio of src/ml_empathy.py `train_and_evaluate`
(line 339): `total_pred_score / total_true_score * 100` with no zero guard.
The division is fallible: at a zero denominator the float code produces no
numeric ratio (inf/nan under suppressed warnings), modelled as `none`. -/
def loo_aggregate_score_ratio (t p : ℚ) : Option ℚ :=
  if t = 0 then none else some (p / t * 100)

/-! ## Leave-one-out worst-suppression step (src/ml_empathy.py
`train_and_evaluate`, lines 274–289) -/

/-- `list(le.classes_)`: `LabelEncoder` sorts the labels, and
'Negative' < 'Neutral' < 'Positive' alphabetically. -/
def looClasses : List Category :=
  [Category.Negative, Category.Neutral, Category.Positive]

/-- `list(le.classes_).index(worst_label)`: first index of the label. -/
def classIndex (c : Category) : ℕ :=
  looClasses.findIdx (fun x => decide (x = c))

/-- Maximum of a rational list (value of `np.max`; the `[]` case is unused). -/
def listMax : List ℚ → ℚ
  | [] => 0
  | [x] => x
  | x :: y :: rest => max x (listMax (y :: rest))

/-- `np.argmax`: index of the first occurrence of the maximum. -/
def argmaxIdx : List ℚ → ℕ
  | [] => 0
  | [_] => 0
  | x :: y :: rest => if listMax (y :: rest) ≤ x then 0 else argmaxIdx (y :: rest) + 1

/-- The per-sample prediction adjustment of src/ml_empathy.py: set the
probability at `worst_idx` to 0; if the remaining mass is positive, renormalize
and take the arg-max, otherwise fall back to `model.predict`, which for a
random forest is the arg-max of the same unmodified probability vector. -/
def adjustedPrediction (proba : List ℚ) (wIdx : ℕ) : ℕ :=
  let adjusted := proba.set wIdx 0
  if 0 < adjusted.sum then argmaxIdx (adjusted.map (fun x => x / adjusted.sum))
  else argmaxIdx proba

/-! ## Concrete example days used by the claims -/

/-- The day with valences [3, 3, 8] (clusters filled by `assign_cluster` as in
`analyze_emotions_by_day`). -/
def exC9 : List Obs :=
  [⟨3, 0, assign_cluster 3⟩, ⟨3, 60, assign_cluster 3⟩, ⟨8, 120, assign_cluster 8⟩]

/-- A one-observation day with a cluster produced by `assign_cluster`. -/
def exC4 : List Obs := [⟨3, 0, assign_cluster 3⟩]

/-- Two observations 12 hours (43200 s) apart with valences [3.0, 8.0]. -/
def exC8 : List Obs := [⟨3.0, 0, ""⟩, ⟨8.0, 43200, ""⟩]

/-- A day frame without the derived `emotion_category` column. -/
def dfC3 : DayFrame := ⟨[⟨3, 0, "1-強いネガティブ"⟩], none⟩

/-- A one-observation day with valence 8 (cluster from `assign_cluster`). -/
def exC10 : List Obs := [⟨8, 0, assign_cluster 8⟩]

/-! ## Theorems -/

/-- C5: every estimation strategy (most-frequent, peak-deviation, latest-value,
average, time-weighted-average, cluster-majority, weighted-cluster, and the
normalized-peak variant) applied to an empty day returns Neutral as a defined
default, not an error. -/
theorem empty_day_returns_neutral :
    algorithm_most_frequent [] = Category.Neutral ∧
    algorithm_peak_value [] = Category.Neutral ∧
    algorithm_latest_value [] = Category.Neutral ∧
    algorithm_average_value [] = Category.Neutral ∧
    algorithm_weighted_average [] = Category.Neutral ∧
    algorithm_cluster_based [] = Category.Neutral ∧
    algorithm_weighted_cluster [] = Category.Neutral ∧
    estimate_emotion_by_peak_value [] = Category.Neutral :=
  ⟨rfl, rfl, rfl, rfl, rfl, rfl, rfl, rfl⟩

/-- C7: `classify_by_valence` returns Negative iff `v ≤ 4.5`, Neutral iff
`4.5 < v ≤ 6.0`, Positive iff `v > 6.0` (closed-upper boundaries), and the
duplicate classifier in src/peak_value_estimator.py agrees with it
everywhere. -/
theorem classify_by_valence_boundaries :
    ∀ v : ℚ,
      (classify_by_valence v = Category.Negative ↔ v ≤ 4.5) ∧
      (classify_by_valence v = Category.Neutral ↔ 4.5 < v ∧ v ≤ 6.0) ∧
      (classify_by_valence v = Category.Positive ↔ 6.0 < v) ∧
      pv_classify_by_valence v = classify_by_valence v := by
  intro v
  refine ⟨?_, ?_, ?_, rfl⟩ <;> unfold classify_by_valence <;> split_ifs with h1 h2
  · simp [h1]
  · simp [h1]
  · simp [h1]
  · simp only [false_iff, not_and, not_le]
    intro ha; linarith
  · exact ⟨fun _ => ⟨not_le.mp h1, h2⟩, fun _ => rfl⟩
  · simp only [false_iff, not_and, not_le]
    intro ha; linarith [not_le.mp h2]
  · simp only [false_iff, not_lt]
    linarith
  · simp only [false_iff, not_lt]
    linarith
  · exact ⟨fun _ => not_le.mp h2, fun _ => rfl⟩

/-- C6: the correct-category set is exactly the arg-max set of the three
scores and the worst-category set exactly the arg-min set; both are always
non-empty; both equal the full list (Positive, Neutral, Negative) when all
three scores are equal; and the match / avoid-worst judgments are membership
tests against the sets. -/
theorem category_sets_characterization :
    ∀ p n g : ℚ, ∀ c : Category,
      (c ∈ correct_categories p n g ↔ scoreOf c p n g = max p (max n g)) ∧
      (c ∈ worst_categories p n g ↔ scoreOf c p n g = min p (min n g)) ∧
      correct_categories p n g ≠ [] ∧
      worst_categories p n g ≠ [] ∧
      (matchesJudgment c (correct_categories p n g) = true ↔
        scoreOf c p n g = max p (max n g)) ∧
      (avoidWorstJudgment c (worst_categories p n g) = true ↔
        ¬ scoreOf c p n g = min p (min n g)) ∧
      (p = n → n = g →
        correct_categories p n g =
          [Category.Positive, Category.Neutral, Category.Negative] ∧
        worst_categories p n g =
          [Category.Positive, Category.Neutral, Category.Negative]) := by
  intro p n g c
  have hA : c ∈ correct_categories p n g ↔ scoreOf c p n g = max p (max n g) := by
    cases c <;> simp only [correct_categories, scoreOf] <;> split_ifs <;>
      first
        | exact iff_of_true (by decide) (by assumption)
        | exact iff_of_false (by decide) (by assumption)
  have hB : c ∈ worst_categories p n g ↔ scoreOf c p n g = min p (min n g) := by
    cases c <;> simp only [worst_categories, scoreOf] <;> split_ifs <;>
      first
        | exact iff_of_true (by decide) (by assumption)
        | exact iff_of_false (by decide) (by assumption)
  have hmaxor : p = max p (max n g) ∨ n = max p (max n g) ∨ g = max p (max n g) := by
    rcases max_choice p (max n g) with h | h
    · exact Or.inl h.symm
    · rcases max_choice n g with h2 | h2
      · exact Or.inr (Or.inl (by rw [h, h2]))
      · exact Or.inr (Or.inr (by rw [h, h2]))
  have hminor : p = min p (min n g) ∨ n = min p (min n g) ∨ g = min p (min n g) := by
    rcases min_choice p (min n g) with h | h
    · exact Or.inl h.symm
    · rcases min_choice n g with h2 | h2
      · exact Or.inr (Or.inl (by rw [h, h2]))
      · exact Or.inr (Or.inr (by rw [h, h2]))
  have hCne : correct_categories p n g ≠ [] := by
    simp only [correct_categories]
    split_ifs <;>
      first
        | decide
        | (rcases hmaxor with h | h | h <;> exact absurd h (by assumption))
  have hDne : worst_categories p n g ≠ [] := by
    simp only [worst_categories]
    split_ifs <;>
      first
        | decide
        | (rcases hminor with h | h | h <;> exact absurd h (by assumption))
  refine ⟨hA, hB, hCne, hDne, ?_, ?_, ?_⟩
  · simp only [matchesJudgment, decide_eq_true_eq]
    exact hA
  · simp only [avoidWorstJudgment, decide_eq_true_eq]
    exact not_congr hB
  · rintro rfl rfl
    constructor <;>
      simp only [correct_categories, worst_categories, max_self, min_self,
        eq_self_iff_true, if_true, List.singleton_append, List.cons_append,
        List.nil_append]

/-- Witness for the C6 theorem at the all-tied scores (3,3,3). -/
theorem category_sets_characterization_witness :
    correct_categories 3 3 3 =
      [Category.Positive, Category.Neutral, Category.Negative] ∧
    worst_categories 3 3 3 =
      [Category.Positive, Category.Neutral, Category.Negative] :=
  (category_sets_characterization 3 3 3 Category.Positive).2.2.2.2.2.2 rfl rfl

/-- Helper: `pickMajority` with a Positive count achieving the maximum returns
Positive (Positive is checked first, so it wins every tie it is part of). -/
theorem pickMajority_pos_of_max (negC neuC posC : ℕ)
    (h : posC = max negC (max neuC posC)) :
    pickMajority negC neuC posC = Category.Positive := by
  unfold pickMajority
  rw [if_pos h]

/-- Helper: whichever category `pickMajority` returns, its count achieves the
maximum of the three counts. -/
theorem pickMajority_eq_cases (negC neuC posC : ℕ) :
    (pickMajority negC neuC posC = Category.Positive ∧
      posC = max negC (max neuC posC)) ∨
    (pickMajority negC neuC posC = Category.Negative ∧
      negC = max negC (max neuC posC)) ∨
    (pickMajority negC neuC posC = Category.Neutral ∧
      neuC = max negC (max neuC posC)) := by
  unfold pickMajority
  split_ifs with h1 h2
  · exact Or.inl ⟨rfl, h1⟩
  · exact Or.inr (Or.inl ⟨rfl, h2⟩)
  · refine Or.inr (Or.inr ⟨rfl, ?_⟩)
    rcases max_choice negC (max neuC posC) with h | h
    · exact absurd h.symm h2
    · rcases max_choice neuC posC with h3 | h3
      · rw [h, h3]
      · exact absurd (by rw [h, h3]) h1

/-- Helper: with a zero Neutral count, `pickMajority` never returns Neutral. -/
theorem pickMajority_ne_neutral_of_no_neutral (negC posC : ℕ) :
    pickMajority negC 0 posC ≠ Category.Neutral := by
  unfold pickMajority
  split_ifs with h1 h2
  · decide
  · decide
  · exfalso
    rcases max_choice negC (max 0 posC) with h | h
    · exact h2 h.symm
    · have : posC = max negC (max 0 posC) := by
        rw [Nat.zero_max] at h ⊢
        exact h.symm
      exact h1 this

/-- Helper: `algorithm_most_frequent` on a non-empty day is `pickMajority` of
the three per-category counts. -/
theorem most_frequent_repr (d : List Obs) (hd : d ≠ []) :
    algorithm_most_frequent d =
      pickMajority (catCount d Category.Negative) (catCount d Category.Neutral)
        (catCount d Category.Positive) := by
  simp only [algorithm_most_frequent, catCount, if_neg hd]

/-- Helper: every per-category count is bounded by the max of the three. -/
theorem catCount_le_max (d : List Obs) (c : Category) :
    catCount d c ≤ max (catCount d Category.Negative)
      (max (catCount d Category.Neutral) (catCount d Category.Positive)) := by
  cases c
  · exact le_max_left _ _
  · exact le_trans (le_max_left _ _) (le_max_right _ _)
  · exact le_trans (le_max_right _ _) (le_max_right _ _)

/-- C9: on a non-empty day MostFrequent returns a category with the highest
per-observation count and Positive wins any tie for the maximum; on the day
with valences [3,3,8] the counts are Negative=2, Positive=1, Neutral=0 and the
result is Negative. -/
theorem most_frequent_majority :
    (∀ d : List Obs, d ≠ [] →
      (∀ c : Category, catCount d c ≤ catCount d (algorithm_most_frequent d)) ∧
      ((∀ c : Category, catCount d c ≤ catCount d Category.Positive) →
        algorithm_most_frequent d = Category.Positive)) ∧
    algorithm_most_frequent exC9 = Category.Negative ∧
    catCount exC9 Category.Negative = 2 ∧
    catCount exC9 Category.Positive = 1 ∧
    catCount exC9 Category.Neutral = 0 := by
  constructor
  · intro d hd
    constructor
    · intro c
      rw [most_frequent_repr d hd]
      rcases pickMajority_eq_cases (catCount d Category.Negative)
          (catCount d Category.Neutral) (catCount d Category.Positive) with
        ⟨h, hm⟩ | ⟨h, hm⟩ | ⟨h, hm⟩ <;>
        rw [h] <;> exact (catCount_le_max d c).trans hm.ge
    · intro hpos
      have hmx : catCount d Category.Positive =
          max (catCount d Category.Negative)
            (max (catCount d Category.Neutral) (catCount d Category.Positive)) :=
        le_antisymm (catCount_le_max d Category.Positive)
          (max_le (hpos Category.Negative) (max_le (hpos Category.Neutral) le_rfl))
      rw [most_frequent_repr d hd]
      exact pickMajority_pos_of_max _ _ _ hmx
  · have e3 : assign_cluster 3 = "1-強いネガティブ" := by
      unfold assign_cluster
      rw [if_pos (by norm_num)]
    have e8 : assign_cluster 8 = "6-強いポジティブ" := by
      unfold assign_cluster
      rw [if_neg (by norm_num), if_neg (by norm_num), if_neg (by norm_num),
        if_neg (by norm_num), if_neg (by norm_num)]
    have hex : exC9 = [⟨3, 0, "1-強いネガティブ"⟩, ⟨3, 60, "1-強いネガティブ"⟩,
        ⟨8, 120, "6-強いポジティブ"⟩] := by
      unfold exC9
      rw [e3, e8]
    refine ⟨?_, ?_, ?_, ?_⟩ <;> rw [hex] <;> decide

/-- Witness for the C9 theorem on the non-empty day [3,3,8]. -/
theorem most_frequent_majority_witness :
    exC9 ≠ [] ∧
    catCount exC9 Category.Positive ≤ catCount exC9 (algorithm_most_frequent exC9) :=
  ⟨by decide, (most_frequent_majority.1 exC9 (by decide)).1 Category.Positive⟩

/-- C4: every cluster label produced by `assign_cluster` carries the negative
or the positive marker, so on a non-empty day whose clusters come from
`assign_cluster` the Neutral count is zero and neither MostFrequent nor
ClusterMajority can return Neutral. -/
theorem cluster_strategies_never_neutral :
    (∀ v : ℚ, classify_by_cluster (assign_cluster v) ≠ Category.Neutral) ∧
    ∀ d : List Obs, d ≠ [] →
      (∀ o ∈ d, ∃ v : ℚ, o.cluster = assign_cluster v) →
      catCount d Category.Neutral = 0 ∧
      algorithm_most_frequent d ≠ Category.Neutral ∧
      algorithm_cluster_based d ≠ Category.Neutral := by
  have hmarker : ∀ v : ℚ,
      hasSub (assign_cluster v) "ネガティブ" = true ∨
      (hasSub (assign_cluster v) "ネガティブ" = false ∧
       hasSub (assign_cluster v) "ポジティブ" = true) := by
    intro v
    unfold assign_cluster
    split_ifs <;> first | exact Or.inl (by decide) | exact Or.inr (by decide)
  have hclassify : ∀ v : ℚ,
      classify_by_cluster (assign_cluster v) ≠ Category.Neutral := by
    intro v
    rcases hmarker v with h | ⟨h1, h2⟩
    · unfold classify_by_cluster
      rw [if_pos h]
      decide
    · unfold classify_by_cluster
      rw [if_neg (by simp [h1]), if_pos h2]
      decide
  refine ⟨hclassify, ?_⟩
  intro d hd hmem
  have hneu : catCount d Category.Neutral = 0 := by
    unfold catCount
    rw [List.countP_eq_zero]
    intro a ha
    rcases List.mem_map.mp ha with ⟨o, ho, rfl⟩
    rcases hmem o ho with ⟨v, hv⟩
    rw [hv]
    simpa using hclassify v
  refine ⟨hneu, ?_, ?_⟩
  · rw [most_frequent_repr d hd, hneu]
    exact pickMajority_ne_neutral_of_no_neutral _ _
  · have hneu2 : d.countP
        (fun o => !hasSub o.cluster "ネガティブ" && !hasSub o.cluster "ポジティブ") = 0 := by
      rw [List.countP_eq_zero]
      intro o ho
      rcases hmem o ho with ⟨v, hv⟩
      rw [hv]
      rcases hmarker v with h | ⟨h1, h2⟩
      · simp [h]
      · simp [h1, h2]
    unfold algorithm_cluster_based
    rw [if_neg hd, hneu2]
    exact pickMajority_ne_neutral_of_no_neutral _ _

/-- Witness for the C4 theorem on a one-observation day built with
`assign_cluster`. -/
theorem cluster_strategies_never_neutral_witness :
    exC4 ≠ [] ∧
    algorithm_most_frequent exC4 ≠ Category.Neutral ∧
    algorithm_cluster_based exC4 ≠ Category.Neutral := by
  have hmem : ∀ o ∈ exC4, ∃ v : ℚ, o.cluster = assign_cluster v := by
    intro o ho
    have h : o = ⟨3, 0, assign_cluster 3⟩ := by simpa [exC4] using ho
    exact ⟨3, by rw [h]⟩
  have h := cluster_strategies_never_neutral.2 exC4 (by decide) hmem
  exact ⟨by decide, h.2.1, h.2.2⟩

/-- C3 counterexample: `algorithm_most_frequent` writes the derived
`emotion_category` column into the caller's frame, so on a frame without that
column the input observed after the call differs from the input before it. -/
theorem most_frequent_mutates_input :
    (algorithm_most_frequent_st dfC3).2 ≠ dfC3 := by decide

/-- C3 (amended): every strategy returns a Category that is a function of the
input rows only, and every strategy except MostFrequent leaves the caller's
frame unchanged; MostFrequent overwrites the derived `emotion_category` column
of the caller's frame but leaves the observation rows unchanged. -/
theorem strategies_frame_effects :
    (∀ df : DayFrame, (algorithm_peak_value_st df).2 = df) ∧
    (∀ df : DayFrame, (algorithm_latest_value_st df).2 = df) ∧
    (∀ df : DayFrame, (algorithm_average_value_st df).2 = df) ∧
    (∀ df : DayFrame, (algorithm_weighted_average_st df).2 = df) ∧
    (∀ df : DayFrame, (algorithm_cluster_based_st df).2 = df) ∧
    (∀ df : DayFrame, (algorithm_weighted_cluster_st df).2 = df) ∧
    (∀ df : DayFrame, (estimate_emotion_by_peak_value_st df).2 = df) ∧
    (∀ df : DayFrame, (algorithm_most_frequent_st df).2.rows = df.rows) ∧
    (∀ df : DayFrame, (algorithm_most_frequent_st df).1 =
      algorithm_most_frequent df.rows) := by
  refine ⟨fun _ => rfl, fun _ => rfl, fun _ => rfl, fun _ => rfl, fun _ => rfl,
    fun _ => rfl, fun _ => rfl, ?_, ?_⟩
  · intro df
    unfold algorithm_most_frequent_st
    split_ifs <;> rfl
  · intro df
    unfold algorithm_most_frequent_st algorithm_most_frequent
    split_ifs <;> rfl

/-- C2 counterexample: at total true score 0 and predicted score 5 the LOO
evaluator's aggregate score ratio (unguarded division) yields no numeric 0;
the claim that it equals 0 there is false. -/
theorem score_ratio_loo_counterexample :
    loo_aggregate_score_ratio 0 5 ≠ some 0 := by decide

/-- C2 (amended): the guarded score ratio of the per-strategy accuracy report
equals p/t*100 when t > 0 and 0 when t = 0, and never raises; the LOO
evaluator's aggregate score ratio is an unguarded division, equal to p/t*100
only for t ≠ 0 and undefined (no numeric result) at t = 0. -/
theorem score_ratio_behaviour :
    ∀ t p : ℚ,
      (0 < t → score_ratio_report t p = p / t * 100) ∧
      (t = 0 → score_ratio_report t p = 0) ∧
      (t ≠ 0 → loo_aggregate_score_ratio t p = some (p / t * 100)) ∧
      loo_aggregate_score_ratio 0 p = none := by
  intro t p
  refine ⟨?_, ?_, ?_, ?_⟩
  · intro h
    unfold score_ratio_report
    rw [if_pos h]
  · intro h
    unfold score_ratio_report
    rw [if_neg (by rw [h]; exact lt_irrefl 0)]
  · intro h
    unfold loo_aggregate_score_ratio
    rw [if_neg h]
  · unfold loo_aggregate_score_ratio
    rw [if_pos rfl]

/-- Witness for the C2 theorem at true score 2, predicted score 1. -/
theorem score_ratio_behaviour_witness :
    (0:ℚ) < 2 ∧ score_ratio_report 2 1 = 1 / 2 * 100 :=
  ⟨by decide, (score_ratio_behaviour 2 1).1 (by decide)⟩

/-- C10: composing the cluster weights with `assign_cluster` realizes the
fixed ascending thresholds with the fixed ordered weights, and on a non-empty
day WeightedCluster returns Positive iff the average weight exceeds 0.3,
Negative iff it is below -0.3, and Neutral otherwise. -/
theorem weighted_cluster_thresholds :
    (∀ v : ℚ, clusterWeight (assign_cluster v) =
      if v ≤ 3.5 then -2.0 else if v ≤ 4.5 then -1.0 else if v ≤ 5.2 then -0.3
      else if v ≤ 6.0 then 0.3 else if v ≤ 7.6 then 1.0 else 2.0) ∧
    (∀ d : List Obs, d ≠ [] →
      (algorithm_weighted_cluster d = Category.Positive ↔
        0.3 < avgClusterWeight d) ∧
      (algorithm_weighted_cluster d = Category.Negative ↔
        avgClusterWeight d < -0.3) ∧
      (algorithm_weighted_cluster d = Category.Neutral ↔
        -0.3 ≤ avgClusterWeight d ∧ avgClusterWeight d ≤ 0.3)) := by
  constructor
  · intro v
    unfold assign_cluster
    split_ifs
    · unfold clusterWeight
      rw [if_pos rfl]
    · unfold clusterWeight
      rw [if_neg (by decide), if_pos rfl]
    · unfold clusterWeight
      rw [if_neg (by decide), if_neg (by decide), if_pos rfl]
    · unfold clusterWeight
      rw [if_neg (by decide), if_neg (by decide), if_neg (by decide), if_pos rfl]
    · unfold clusterWeight
      rw [if_neg (by decide), if_neg (by decide), if_neg (by decide),
        if_neg (by decide), if_pos rfl]
    · unfold clusterWeight
      rw [if_neg (by decide), if_neg (by decide), if_neg (by decide),
        if_neg (by decide), if_neg (by decide), if_pos rfl]
  · intro d hd
    unfold algorithm_weighted_cluster
    rw [if_neg hd]
    split_ifs with h1 h2
    · exact ⟨iff_of_true rfl h1,
        iff_of_false (by decide) (by intro h; linarith),
        iff_of_false (by decide) (fun hc => absurd h1 (not_lt.mpr hc.2))⟩
    · exact ⟨iff_of_false (by decide) h1,
        iff_of_true rfl h2,
        iff_of_false (by decide) (fun hc => absurd hc.1 (not_le.mpr h2))⟩
    · exact ⟨iff_of_false (by decide) h1,
        iff_of_false (by decide) h2,
        iff_of_true rfl ⟨not_lt.mp h2, not_lt.mp h1⟩⟩

/-- Witness for the C10 theorem on a non-empty one-observation day. -/
theorem weighted_cluster_thresholds_witness :
    exC10 ≠ [] ∧
    (algorithm_weighted_cluster exC10 = Category.Positive ↔
      0.3 < avgClusterWeight exC10) :=
  ⟨by decide, (weighted_cluster_thresholds.2 exC10 (by decide)).1⟩

/-- Helper: a left fold with `min` is bounded by its initial value. -/
theorem foldl_min_le_init (l : List ℤ) (a : ℤ) : l.foldl min a ≤ a := by
  induction l generalizing a with
  | nil => exact le_refl a
  | cons b t ih => exact le_trans (ih (min a b)) (min_le_left a b)

/-- Helper: a left fold with `min` is bounded by every list element. -/
theorem foldl_min_le_mem (l : List ℤ) (a x : ℤ) (h : x ∈ l) :
    l.foldl min a ≤ x := by
  induction l generalizing a with
  | nil => cases h
  | cons b t ih =>
    rcases List.mem_cons.mp h with rfl | hx
    · exact le_trans (foldl_min_le_init t (min a x)) (min_le_right a x)
    · exact ih (min a b) hx


/-- Helper: a left fold with `min` returns its initial value or an element. -/
theorem foldl_min_eq_or_mem (l : List ℤ) (a : ℤ) :
    l.foldl min a = a ∨ l.foldl min a ∈ l := by
  induction l generalizing a with
  | nil => exact Or.inl rfl
  | cons b t ih =>
    rcases ih (min a b) with h | h
    · rcases min_choice a b with h2 | h2
      · exact Or.inl (by rw [List.foldl_cons, h, h2])
      · exact Or.inr (by rw [List.foldl_cons, h, h2]; exact List.mem_cons_self b t)
    · exact Or.inr (List.mem_cons_of_mem b h)

/-- Helper: a left fold with `max` dominates its initial value. -/
theorem foldl_max_ge_init (l : List ℤ) (a : ℤ) : a ≤ l.foldl max a := by
  induction l generalizing a with
  | nil => exact le_refl a
  | cons b t ih => exact le_trans (le_max_left a b) (ih (max a b))

/-- Helper: a left fold with `max` dominates every list element. -/
theorem foldl_max_ge_mem (l : List ℤ) (a x : ℤ) (h : x ∈ l) :
    x ≤ l.foldl max a := by
  induction l generalizing a with
  | nil => cases h
  | cons b t ih =>
    rcases List.mem_cons.mp h with rfl | hx
    · exact le_trans (le_max_right a x) (foldl_max_ge_init t (max a x))
    · exact ih (max a b) hx

/-- Helper: a left fold with `max` returns its initial value or an element. -/
theorem foldl_max_eq_or_mem (l : List ℤ) (a : ℤ) :
    l.foldl max a = a ∨ l.foldl max a ∈ l := by
  induction l generalizing a with
  | nil => exact Or.inl rfl
  | cons b t ih =>
    rcases ih (max a b) with h | h
    · rcases max_choice a b with h2 | h2
      · exact Or.inl (by rw [List.foldl_cons, h, h2])
      · exact Or.inr (by rw [List.foldl_cons, h, h2]; exact List.mem_cons_self b t)
    · exact Or.inr (List.mem_cons_of_mem b h)

/-- Helper: `minTime` bounds every observation's timestamp from below. -/
theorem minTime_le (d : List Obs) (o : Obs) (h : o ∈ d) :
    minTime d ≤ o.datetime := by
  rcases d with _ | ⟨b, t⟩
  · cases h
  · unfold minTime listMinZ
    rw [List.map_cons]
    rcases List.mem_cons.mp h with rfl | hx
    · exact foldl_min_le_init _ _
    · exact foldl_min_le_mem _ _ _ (List.mem_map_of_mem _ hx)

/-- Helper: `maxTime` bounds every observation's timestamp from above. -/
theorem maxTime_ge (d : List Obs) (o : Obs) (h : o ∈ d) :
    o.datetime ≤ maxTime d := by
  rcases d with _ | ⟨b, t⟩
  · cases h
  · unfold maxTime listMaxZ
    rw [List.map_cons]
    rcases List.mem_cons.mp h with rfl | hx
    · exact foldl_max_ge_init _ _
    · exact foldl_max_ge_mem _ _ _ (List.mem_map_of_mem _ hx)

/-- Helper: `maxTime` of a non-empty day is one of its timestamps. -/
theorem maxTime_mem (d : List Obs) (hd : d ≠ []) :
    ∃ o ∈ d, maxTime d = o.datetime := by
  rcases d with _ | ⟨b, t⟩
  · exact absurd rfl hd
  · unfold maxTime listMaxZ
    rw [List.map_cons]
    rcases foldl_max_eq_or_mem (t.map (fun o => o.datetime)) b.datetime with h | h
    · exact ⟨b, List.mem_cons_self b t, h⟩
    · rcases List.mem_map.mp h with ⟨o, ho, heq⟩
      exact ⟨o, List.mem_cons_of_mem b ho, heq.symm⟩

/-- Helper: on a non-empty day the minimum timestamp is at most the maximum. -/
theorem minTime_le_maxTime (d : List Obs) (hd : d ≠ []) :
    minTime d ≤ maxTime d := by
  rcases d with _ | ⟨b, t⟩
  · exact absurd rfl hd
  · exact le_trans (minTime_le _ b (List.mem_cons_self b t))
      (maxTime_ge _ b (List.mem_cons_self b t))

/-- Helper: the source's `time_diffs.max()` equals `t_max - t_min`. -/
theorem diffs_foldl_max (d : List Obs) (hd : d ≠ []) :
    (d.map (fun o => o.datetime - minTime d)).foldl max 0 =
      maxTime d - minTime d := by
  apply le_antisymm
  · rcases foldl_max_eq_or_mem (d.map (fun o => o.datetime - minTime d)) 0 with h | h
    · rw [h]
      exact sub_nonneg.mpr (minTime_le_maxTime d hd)
    · rcases List.mem_map.mp h with ⟨o, ho, heq⟩
      rw [← heq]
      exact sub_le_sub_right (maxTime_ge d o ho) _
  · rcases maxTime_mem d hd with ⟨o, ho, hM⟩
    rw [hM]
    exact foldl_max_ge_mem _ _ _ (List.mem_map_of_mem _ ho)

/-- C8: on every non-empty day the source's WeightedAverage equals the
classification of the spec's time-weighted mean (weight
`(t - t_min)/(t_max - t_min) * 1.0 + 0.5`, plain mean when all timestamps are
equal), and on the two observations 12 hours apart with valences [3, 8] the
weighted mean is 6.75 and the result Positive. -/
theorem weighted_average_matches_spec :
    (∀ d : List Obs, d ≠ [] →
      algorithm_weighted_average d = classify_by_valence (weighted_mean_spec d)) ∧
    algorithm_weighted_average exC8 = Category.Positive ∧
    weighted_mean_spec exC8 = 6.75 := by
  have hgen : ∀ d : List Obs, d ≠ [] →
      algorithm_weighted_average d = classify_by_valence (weighted_mean_spec d) := by
    intro d hd
    simp only [algorithm_weighted_average, weighted_mean_spec, if_neg hd]
    rw [diffs_foldl_max d hd]
    by_cases hM : maxTime d = minTime d
    · rw [if_pos (by rw [hM, sub_self]), if_pos hM]
    · rw [if_neg (fun hc => hM (sub_eq_zero.mp hc)), if_neg hM]
  have hspec : weighted_mean_spec exC8 = 6.75 := by
    unfold weighted_mean_spec exC8 minTime maxTime listMinZ listMaxZ
    simp only [List.map_cons, List.map_nil, List.foldl_cons, List.foldl_nil,
      List.sum_cons, List.sum_nil, List.length_cons, List.length_nil]
    rw [show min (0:ℤ) 43200 = 0 from by omega,
      show max (0:ℤ) 43200 = 43200 from by omega]
    rw [if_neg (by omega)]
    push_cast
    norm_num
  refine ⟨hgen, ?_, hspec⟩
  rw [hgen exC8 (by decide), hspec]
  unfold classify_by_valence
  rw [if_neg (by norm_num), if_neg (by norm_num)]

/-- Witness for the C8 theorem on the two-observation example day. -/
theorem weighted_average_matches_spec_witness :
    exC8 ≠ [] ∧
    algorithm_weighted_average exC8 = classify_by_valence (weighted_mean_spec exC8) :=
  ⟨by decide, weighted_average_matches_spec.1 exC8 (by decide)⟩

/-- Helper: `listMax` dominates every element of the list. -/
theorem listMax_ge_mem : ∀ (l : List ℚ) (x : ℚ), x ∈ l → x ≤ listMax l := by
  intro l
  induction l with
  | nil => intro x hx; cases hx
  | cons b t ih =>
    intro x hx
    rcases List.mem_cons.mp hx with rfl | hx2
    · cases t with
      | nil => exact le_refl x
      | cons c r => exact le_max_left _ _
    · cases t with
      | nil => cases hx2
      | cons c r => exact le_trans (ih x hx2) (le_max_right _ _)

/-- Helper: `argmaxIdx` of a non-empty list is a valid index. -/
theorem argmaxIdx_lt_length : ∀ (l : List ℚ), l ≠ [] → argmaxIdx l < l.length := by
  intro l
  induction l with
  | nil => intro h; exact absurd rfl h
  | cons b t ih =>
    intro _
    cases t with
    | nil => simp [argmaxIdx]
    | cons c r =>
      unfold argmaxIdx
      split_ifs
      · simp
      · exact Nat.succ_lt_succ (ih (by simp))

/-- Helper: the element at `argmaxIdx` is the maximum of the list. -/
theorem getD_argmaxIdx : ∀ (l : List ℚ), l ≠ [] →
    l.getD (argmaxIdx l) 0 = listMax l := by
  intro l
  induction l with
  | nil => intro h; exact absurd rfl h
  | cons b t ih =>
    intro _
    cases t with
    | nil => rfl
    | cons c r =>
      unfold argmaxIdx
      split_ifs with h
      · show b = listMax (b :: c :: r)
        exact (max_eq_left h).symm
      · show (c :: r).getD (argmaxIdx (c :: r)) 0 = listMax (b :: c :: r)
        rw [ih (by simp)]
        exact (max_eq_right (le_of_not_le h)).symm

/-- Helper: a list with positive sum has a positive element. -/
theorem exists_pos_of_sum_pos : ∀ (l : List ℚ), 0 < l.sum → ∃ x ∈ l, 0 < x := by
  intro l
  induction l with
  | nil => intro h; simp at h
  | cons b t ih =>
    intro h
    by_cases hb : 0 < b
    · exact ⟨b, List.mem_cons_self b t, hb⟩
    · have ht : 0 < t.sum := by
        rw [List.sum_cons] at h
        push_neg at hb
        linarith
      rcases ih ht with ⟨x, hx, hpos⟩
      exact ⟨x, List.mem_cons_of_mem b hx, hpos⟩

/-- Helper: after zeroing index `i` and dividing by any constant, the entry at
index `i` is 0. -/
theorem getD_set_map_zero : ∀ (l : List ℚ) (i : ℕ) (s : ℚ), i < l.length →
    ((l.set i 0).map (fun x => x / s)).getD i 0 = 0 := by
  intro l
  induction l with
  | nil => intro i s h; exact absurd h (Nat.not_lt_zero i)
  | cons b t ih =>
    intro i s h
    cases i with
    | zero => exact zero_div s
    | succ j =>
      show ((t.set j 0).map (fun x => x / s)).getD j 0 = 0
      exact ih j s (Nat.lt_of_succ_lt_succ h)

/-- C1 (amended): the per-sample adjustment of the LOO evaluator zeroes only
the single worst-label index; whenever any probability mass remains after
zeroing, the renormalized arg-max prediction is never that index. -/
theorem adjusted_prediction_avoids_worst_index :
    ∀ (proba : List ℚ) (wIdx : ℕ),
      wIdx < proba.length →
      (∀ x ∈ proba, 0 ≤ x) →
      0 < (proba.set wIdx 0).sum →
      adjustedPrediction proba wIdx ≠ wIdx := by
  intro proba wIdx hlen hnn hsum
  simp only [adjustedPrediction]
  rw [if_pos hsum]
  intro hcontra
  have hne : (proba.set wIdx 0).map (fun x => x / (proba.set wIdx 0).sum) ≠ [] := by
    intro h0
    have hnil : proba.set wIdx 0 = [] := List.map_eq_nil_iff.mp h0
    have : proba.length = 0 := by simpa using congrArg List.length hnil
    omega
  have hmax := getD_argmaxIdx _ hne
  rw [hcontra] at hmax
  have hzero := getD_set_map_zero proba wIdx (proba.set wIdx 0).sum hlen
  rw [hzero] at hmax
  rcases exists_pos_of_sum_pos _ hsum with ⟨x, hx, hxpos⟩
  have hxm : x / (proba.set wIdx 0).sum ∈
      (proba.set wIdx 0).map (fun x => x / (proba.set wIdx 0).sum) :=
    List.mem_map_of_mem _ hx
  have hxspos : 0 < x / (proba.set wIdx 0).sum := div_pos hxpos hsum
  have h1 := listMax_ge_mem _ _ hxm
  linarith

/-- Witness for the amended C1 theorem: probabilities [1, 2, 0], worst index 1;
mass remains after zeroing and the prediction avoids index 1. -/
theorem adjusted_prediction_avoids_worst_index_witness :
    1 < [(1:ℚ), 2, 0].length ∧ adjustedPrediction [(1:ℚ), 2, 0] 1 ≠ 1 :=
  ⟨by decide,
    adjusted_prediction_avoids_worst_index [(1:ℚ), 2, 0] 1 (by decide) (by decide)
      (by norm_num [List.set, List.sum_cons, List.sum_nil])⟩

/-- C1 counterexample: with questionnaire scores positive=1, neutral=1,
negative=5 the worst-category set is {Positive, Neutral} but the code zeroes
only `worst_label` = Positive; with class probabilities
(Negative 0.1, Neutral 0.6, Positive 0.3) the adjusted arg-max prediction is
Neutral, a member of the worst-category set, although the three categories are
not all tied for worst. -/
theorem loo_worst_suppression_counterexample :
    looClasses.getD
      (adjustedPrediction [(1:ℚ)/10, 6/10, 3/10] (classIndex (worst_label 1 1 5)))
      Category.Neutral ∈ worst_categories 1 1 5 ∧
    Category.Negative ∉ worst_categories 1 1 5 := by
  have hw : worst_categories 1 1 5 = [Category.Positive, Category.Neutral] := by
    simp only [worst_categories]
    rw [min_eq_left (by norm_num : (1:ℚ) ≤ 5), min_self, if_pos rfl, if_pos rfl,
      if_neg (by norm_num : ¬(5:ℚ) = 1)]
    rfl
  have hwl : worst_label 1 1 5 = Category.Positive := by
    unfold worst_label
    rw [hw]
    rfl
  have hci : classIndex Category.Positive = 2 := by decide
  have hl0 : listMax [(0:ℚ)] = 0 := rfl
  have hl1 : listMax [(6:ℚ)/7, 0] = 6/7 := by
    show max ((6:ℚ)/7) (listMax [0]) = 6/7
    rw [hl0]
    exact max_eq_left (by norm_num)
  have hargmax : argmaxIdx [(1:ℚ)/7, 6/7, 0] = 1 := by
    unfold argmaxIdx
    rw [hl1, if_neg (by norm_num)]
    unfold argmaxIdx
    rw [hl0, if_pos (by norm_num)]
  have hsum : ([(1:ℚ)/10, 6/10, 0]).sum = 7/10 := by
    norm_num [List.sum_cons, List.sum_nil]
  have hmapped : ([(1:ℚ)/10, 6/10, 0]).map (fun x => x / ((7:ℚ)/10)) =
      [(1:ℚ)/7, 6/7, 0] := by
    norm_num
  have hpred : adjustedPrediction [(1:ℚ)/10, 6/10, 3/10] 2 = 1 := by
    simp only [adjustedPrediction]
    rw [show ([(1:ℚ)/10, 6/10, 3/10].set 2 0) = [(1:ℚ)/10, 6/10, 0] from rfl]
    rw [hsum, if_pos (by norm_num), hmapped, hargmax]
  rw [hwl, hci, hpred, hw]
  exact ⟨by decide, by decide⟩

end Emosy
